import Mathlib

/-!
Verification development for the RemoteDownloadManager repository
(src/download-manager.py).

The definitions below are a shallow embedding of the chunked
parallel-download engine (`SFTPConnectionManager.download_file` and its
inner `download_chunk`), the directory-listing cache (`CacheManager`),
and directory listing (`SFTPConnectionManager.list_directory`).

Python machine model used by the embedding:
* Python integers are arbitrary precision; they are embedded as `Int`
  (or `Nat` where the source value is manifestly non-negative).
* `file_size // chunks` is Python floor division; it is `Int.fdiv`, and
  raises `ZeroDivisionError` when `chunks == 0` (embedded as an explicit
  error branch).
* `range(n)` for `n ≤ 0` is empty, embedded through `Int.toNat`.
* The network is modelled by an environment (`WorkerEnv`) describing,
  for one worker: whether the key loads, whether the connection opens,
  whether an exception occurs before the read loop, and the sequence of
  results the remote `read` calls produce (`.ok n` = a read returning
  `n` bytes, with `n = 0` for an empty read; `.exn m` = a read raising
  an exception with message `m`).
-/

/-- The small-file threshold of `download_file`
(`if file_size < 10 * 1024 * 1024`). -/
def smallFileThreshold : Nat := 10 * 1024 * 1024

/-- Python `range(n)` for an `int` argument: empty when `n ≤ 0`. -/
def pyRange (n : Int) : List Int := (List.range n.toNat).map (fun (i : Nat) => (i : Int))

/-- The chunk ranges computed by the parallel path of `download_file`
(lines 235-236 and 308-311): `chunk_size = file_size // chunks`,
`start = i * chunk_size`,
`end = file_size if i == chunks - 1 else (i + 1) * chunk_size`. -/
def chunkRanges (file_size chunk_count : Int) : List (Int × Int) :=
  let chunk_size := Int.fdiv file_size chunk_count
  (pyRange chunk_count).map
    (fun i => (i * chunk_size, if i = chunk_count - 1 then file_size else (i + 1) * chunk_size))

/-- The chunk planning step including the `ZeroDivisionError` raised by
`file_size // chunks` when `chunks = 0`. -/
def chunkPlan (file_size chunk_count : Int) : Except String (List (Int × Int)) :=
  if chunk_count = 0 then
    Except.error "ZeroDivisionError: integer division or modulo by zero"
  else Except.ok (chunkRanges file_size chunk_count)

/-- `chunkRanges` specialised to non-negative sizes and a positive degree,
with Python floor division becoming `Nat` division.  The bridging lemma
`chunkRanges_natCast` proves this agrees with the `Int` model. -/
def chunkRangesNat (ts d : Nat) : List (Nat × Nat) :=
  (List.range d).map
    (fun i => (i * (ts / d), if i = d - 1 then ts else (i + 1) * (ts / d)))

/-- The effective plan of `download_file` for non-negative sizes: a single
whole-file range below the small-file threshold (line 231, `sftp_client.get`),
otherwise the parallel chunk ranges. -/
def planNat (ts d : Nat) : List (Nat × Nat) :=
  if ts < smallFileThreshold then [(0, ts)] else chunkRangesNat ts d

/-- Specification predicate: `rs` is a list of contiguous, non-overlapping
ranges covering exactly the interval from `0` (inclusive) to `ts` (exclusive). -/
def rangesPartition (ts : Nat) (rs : List (Nat × Nat)) : Prop :=
  (∀ r ∈ rs, r.1 ≤ r.2) ∧
  (∀ (i : Nat) (ri rj : Nat × Nat), rs[i]? = some ri → rs[i + 1]? = some rj → ri.2 = rj.1) ∧
  (∀ (i j : Nat) (ri rj : Nat × Nat), i < j → rs[i]? = some ri → rs[j]? = some rj →
    ri.2 ≤ rj.1) ∧
  (∀ k : Nat, k < ts ↔ ∃ r ∈ rs, r.1 ≤ k ∧ k < r.2)

/-- One result of a `remote_file.read` call inside `download_chunk`:
either it returns `n` bytes (`n = 0` is an empty read), or it raises an
exception with the given message. -/
inductive ReadRes where
  | ok (n : Nat)
  | exn (msg : String)
  deriving DecidableEq, Repr

/-- Environment faced by one `download_chunk` worker: whether the private
key loads, whether `ssh.connect` succeeds, whether an exception is raised
between connecting and entering the read loop (opening the SFTP channel,
opening the remote file, seeking, or creating the local temp file), and
the sequence of results the `remote_file.read` calls produce. -/
structure WorkerEnv where
  keyOk : Bool
  connectOk : Bool
  connectExnMsg : String
  openOk : Bool
  openExnMsg : String
  trace : List ReadRes
  deriving DecidableEq, Repr

/-- The read loop of `download_chunk` (lines 289-294):
`while bytes_read < bytes_to_read:` read; `break` on an empty read;
otherwise write the data, add its length to `bytes_read`, and add the
same delta to the shared progress counter under the lock.  An exhausted
trace behaves like an empty read.  Returns the final `bytes_read` and
the message of the exception that aborted the loop, if any. -/
def readLoop (bytesToRead : Nat) : List ReadRes → Nat → Nat × Option String
  | [], acc => (acc, none)
  | r :: rest, acc =>
    if acc < bytesToRead then
      match r with
      | ReadRes.ok n => if n = 0 then (acc, none) else readLoop bytesToRead rest (acc + n)
      | ReadRes.exn m => (acc, some m)
    else (acc, none)

/-- Observable outcome of one `download_chunk` worker: the error entry it
appended to the shared `errors` list (the failing chunk's index paired with
the message), whether its SSH/SFTP session was ever established, whether
that session was closed before the worker returned, whether the local temp
file `local_path.partN` was created, how many bytes it holds, and the total
delta this worker added to the shared `downloaded_bytes` counter. -/
structure WorkerResult where
  error : Option (Nat × String)
  sessionOpened : Bool
  sessionClosed : Bool
  tempCreated : Bool
  tempBytes : Nat
  progressDelta : Nat
  deriving DecidableEq, Repr

/-- The body of `download_chunk(chunk_idx, start, end)` (lines 245-306) with
`bytesToRead = end - start`.  Key-load failure and connect failure record an
error before any session exists; an exception after the connection is up is
caught by the `except` clause, which records the error but contains no
`finally`: the `sftp.close()` / `ssh.close()` calls at lines 302-303 are
reached only when the read loop finishes without raising. -/
def downloadChunkM (idx : Nat) (bytesToRead : Nat) (env : WorkerEnv) : WorkerResult :=
  if env.keyOk = false then
    { error := some (idx, "Key load failed"), sessionOpened := false, sessionClosed := false,
      tempCreated := false, tempBytes := 0, progressDelta := 0 }
  else if env.connectOk = false then
    { error := some (idx, env.connectExnMsg), sessionOpened := false, sessionClosed := false,
      tempCreated := false, tempBytes := 0, progressDelta := 0 }
  else if env.openOk = false then
    { error := some (idx, env.openExnMsg), sessionOpened := true, sessionClosed := false,
      tempCreated := false, tempBytes := 0, progressDelta := 0 }
  else
    match readLoop bytesToRead env.trace 0 with
    | (n, some m) =>
      { error := some (idx, m), sessionOpened := true, sessionClosed := false,
        tempCreated := true, tempBytes := n, progressDelta := n }
    | (n, none) =>
      { error := none, sessionOpened := true, sessionClosed := true,
        tempCreated := true, tempBytes := n, progressDelta := n }

/-- Planned byte count of chunk `i`: `end - start` for the range computed at
lines 310-311 (as a `Nat`; it is non-negative whenever the degree is). -/
def chunkLen (file_size chunk_count : Int) (i : Nat) : Nat :=
  let c := Int.fdiv file_size chunk_count
  ((if (i : Int) = chunk_count - 1 then file_size else ((i : Int) + 1) * c) - (i : Int) * c).toNat

/-- The result of the worker spawned for chunk `i` at lines 309-315. -/
def workerResult (file_size chunk_count : Int) (envs : Nat → WorkerEnv) (i : Nat) :
    WorkerResult :=
  downloadChunkM i (chunkLen file_size chunk_count i) (envs i)

/-- The results of all workers, in chunk-index order (`for i in range(chunks)`). -/
def chunkResults (file_size chunk_count : Int) (envs : Nat → WorkerEnv) :
    List WorkerResult :=
  (List.range chunk_count.toNat).map (workerResult file_size chunk_count envs)

/-- Outcome of the chunked path of `download_file`: the returned boolean,
the collected error entries, the destination file's size if the destination
was created (`none` = destination never opened), the temp files still on
disk when the call returns (chunk index paired with size), and the final
value of the shared `downloaded_bytes` counter. -/
structure TransferResult where
  ok : Bool
  errors : List (Nat × String)
  destWritten : Option Nat
  tempsRemaining : List (Nat × Nat)
  aggregateProgress : Nat
  deriving DecidableEq, Repr

/-- The chunked path of `download_file` (lines 235-339).  `chunks = 0` makes
`file_size // chunks` raise `ZeroDivisionError`, which the outer `except`
turns into a plain `return False`.  Otherwise all workers run to completion;
if any error was recorded the function prints them and returns `False`
before reassembly — the destination is never opened and no temp file is
removed.  With no errors, reassembly concatenates the temp files of chunks
`0..chunks-1` in order into the destination, deleting each, and the function
returns `True` with no size verification of any kind. -/
def downloadFileChunked (file_size chunk_count : Int) (envs : Nat → WorkerEnv) :
    TransferResult :=
  if chunk_count = 0 then
    { ok := false, errors := [], destWritten := none, tempsRemaining := [],
      aggregateProgress := 0 }
  else
    let results := chunkResults file_size chunk_count envs
    let errs := results.filterMap WorkerResult.error
    let agg := (results.map WorkerResult.progressDelta).sum
    if errs = [] then
      { ok := true, errors := [], destWritten := some ((results.map WorkerResult.tempBytes).sum),
        tempsRemaining := [], aggregateProgress := agg }
    else
      { ok := false, errors := errs, destWritten := none,
        tempsRemaining := (List.range chunk_count.toNat).filterMap (fun i =>
          if (workerResult file_size chunk_count envs i).tempCreated then
            some (i, (workerResult file_size chunk_count envs i).tempBytes)
          else none),
        aggregateProgress := agg }

/-- A directory entry as built by `list_directory` (lines 199-205): the
`files.append(file_info)` dictionary.  Modification times are embedded as
integer timestamps (only their ordering matters here). -/
structure DirEntry where
  name : String
  size : Nat
  mtime : Int
  is_dir : Bool
  mode : Nat
  deriving DecidableEq, Repr

/-- A raw attribute record returned by `sftp_client.listdir_attr`. -/
structure SFTPAttr where
  filename : String
  st_size : Nat
  st_mtime : Int
  st_mode : Nat
  deriving DecidableEq, Repr

/-- `stat.S_ISDIR(mode)`: the file-type bits equal `S_IFDIR`. -/
def s_isdir (mode : Nat) : Bool := mode &&& 0o170000 == 0o040000

/-- The `file_info` dictionary built for one attribute record
(`_is_directory` is `stat.S_ISDIR(attr.st_mode)`). -/
def toDirEntry (a : SFTPAttr) : DirEntry :=
  { name := a.filename, size := a.st_size, mtime := a.st_mtime,
    is_dir := s_isdir a.st_mode, mode := a.st_mode }

/-- The sort order of `files.sort(key=lambda x: -x['mtime'])`: ascending in
`-mtime`, that is, descending in `mtime` (ties allowed). -/
def mtimeDesc (a b : DirEntry) : Prop := b.mtime ≤ a.mtime

instance : DecidableRel mtimeDesc :=
  fun a b => inferInstanceAs (Decidable (b.mtime ≤ a.mtime))

instance : IsTotal DirEntry mtimeDesc := ⟨fun a b => le_total b.mtime a.mtime⟩

instance : IsTrans DirEntry mtimeDesc := ⟨fun _ _ _ h1 h2 => le_trans h2 h1⟩

/-- `SFTPConnectionManager.list_directory` (lines 191-214): returns `[]`
when no SFTP client is connected, returns `[]` on any listing exception,
and otherwise returns the entries stably sorted by descending modification
time.  Python's stable `list.sort` is embedded as a stable sort
(`List.insertionSort`) with the same order. -/
def list_directory (connected : Bool) (listing : Except String (List SFTPAttr)) :
    List DirEntry :=
  if connected = false then []
  else
    match listing with
    | Except.error _ => []
    | Except.ok attrs => List.insertionSort mtimeDesc (attrs.map toDirEntry)

/-- One cache file's unpickled payload (the dictionary written by
`CacheManager.set`): a capture timestamp, the directory entries and the
folder-size map (an association list keyed by entry name). -/
structure CacheEntryM where
  timestamp : Nat
  files : List DirEntry
  folder_sizes : List (String × Nat)
  deriving DecidableEq, Repr

/-- `CacheManager._get_cache_key` derives the cache file name from the MD5
hex digest of the path.  The digest is embedded as a deterministic key
derivation; the claims checked here only exercise one path at a time, so
only determinism of the derivation is relevant (MD5 collisions are not
modelled). -/
def cacheKey (path : String) : String := path

/-- The cache directory's contents: which `key.cache` files exist and what
they hold.  Time is embedded as whole seconds (`time.time()` floored). -/
def CacheStore := String → Option CacheEntryM

namespace CacheManager

/-- `CacheManager.get` (lines 387-410): miss if the cache file does not
exist; compute the age at read time; miss if `age > max_age`; otherwise
return the stored files, the (truncated) age, and the stored folder sizes. -/
def get (store : CacheStore) (max_age : Nat) (now : Nat) (path : String) :
    Option (List DirEntry × Nat × List (String × Nat)) :=
  match store (cacheKey path) with
  | none => none
  | some e =>
    let age := now - e.timestamp
    if age > max_age then none
    else some (e.files, age, e.folder_sizes)

/-- `CacheManager.set` (lines 412-424): fully overwrite the entry for the
path's key with the current timestamp, the given files, and
`folder_sizes or {}` (so a missing map is stored as the empty map). -/
def set (store : CacheStore) (now : Nat) (path : String) (files : List DirEntry)
    (folder_sizes : Option (List (String × Nat))) : CacheStore :=
  fun k =>
    if k = cacheKey path then
      some { timestamp := now, files := files, folder_sizes := folder_sizes.getD [] }
    else store k

end CacheManager

/-- Worker environment in which every step succeeds and the single read
returns `n` bytes. -/
def fullEnv (n : Nat) : WorkerEnv :=
  { keyOk := true, connectOk := true, connectExnMsg := "", openOk := true, openExnMsg := "",
    trace := [ReadRes.ok n] }

/-- Worker environment in which every step succeeds but the remote file
yields only 2 bytes and then EOF (an empty read). -/
def shortEnv : WorkerEnv :=
  { keyOk := true, connectOk := true, connectExnMsg := "", openOk := true, openExnMsg := "",
    trace := [ReadRes.ok 2] }

/-- Worker environment in which `ssh.connect` raises. -/
def failEnv : WorkerEnv :=
  { keyOk := true, connectOk := false, connectExnMsg := "Connection failed",
    openOk := true, openExnMsg := "", trace := [] }

/-- Worker environment in which the connection succeeds, 2 bytes are read,
and the next read raises mid-transfer. -/
def exnEnv : WorkerEnv :=
  { keyOk := true, connectOk := true, connectExnMsg := "", openOk := true, openExnMsg := "",
    trace := [ReadRes.ok 2, ReadRes.exn "Connection reset by peer"] }

/-- Two workers: chunk 0 fails to connect, chunk 1 succeeds reading 4 bytes. -/
def oneFailEnvs : Nat → WorkerEnv := fun i => if i = 0 then failEnv else fullEnv 4

/-- Two workers: chunk 0 reads its 4 planned bytes, chunk 1 suffers a short
read (2 of 4 bytes, then EOF). -/
def shortReadEnvs : Nat → WorkerEnv := fun i => if i = 0 then fullEnv 4 else shortEnv

/-- All workers succeed with a single 4-byte read. -/
def allGoodEnvs : Nat → WorkerEnv := fun _ => fullEnv 4

theorem chunkRangesNat_getElem (ts d i : Nat) (hi : i < d) :
    (chunkRangesNat ts d)[i]? =
      some (i * (ts / d), if i = d - 1 then ts else (i + 1) * (ts / d)) := by
  simp [chunkRangesNat, List.getElem?_map, List.getElem?_range, hi]

theorem chunkRangesNat_length (ts d : Nat) : (chunkRangesNat ts d).length = d := by
  simp [chunkRangesNat]

theorem chunkRangesNat_snd_le (ts d : Nat) :
    ∀ r ∈ chunkRangesNat ts d, r.2 ≤ ts := by
  intro r hr
  simp only [chunkRangesNat, List.mem_map, List.mem_range] at hr
  obtain ⟨i, hi, rfl⟩ := hr
  by_cases h : i = d - 1
  · simp [h]
  · simp only [h, if_false]
    calc (i + 1) * (ts / d) ≤ d * (ts / d) := Nat.mul_le_mul_right _ hi
    _ = ts / d * d := Nat.mul_comm _ _
    _ ≤ ts := Nat.div_mul_le_self ts d

theorem chunkRangesNat_wf (ts d : Nat) :
    ∀ r ∈ chunkRangesNat ts d, r.1 ≤ r.2 := by
  intro r hr
  simp only [chunkRangesNat, List.mem_map, List.mem_range] at hr
  obtain ⟨i, hi, rfl⟩ := hr
  by_cases h : i = d - 1
  · subst h
    simp only [if_pos rfl]
    calc (d - 1) * (ts / d) ≤ d * (ts / d) := Nat.mul_le_mul_right _ (Nat.sub_le d 1)
    _ = ts / d * d := Nat.mul_comm _ _
    _ ≤ ts := Nat.div_mul_le_self ts d
  · simp only [h, if_false]
    exact Nat.mul_le_mul_right _ (Nat.le_succ i)

/-- C1: for every totalSize and every degree at least 1, the parallel-path
chunk plan has exactly `degree` ranges which are contiguous, non-overlapping
and cover exactly the interval from 0 to totalSize; and for a totalSize below
the 10 MiB small-file threshold the effective plan is a single range spanning
the whole file. -/
theorem chunk_plan_partition (ts d : Nat) (hd : 1 ≤ d) :
    (chunkRangesNat ts d).length = d ∧
    rangesPartition ts (chunkRangesNat ts d) ∧
    (ts < smallFileThreshold → planNat ts d = [(0, ts)]) := by
  refine ⟨chunkRangesNat_length ts d, ⟨chunkRangesNat_wf ts d, ?_, ?_, ?_⟩, ?_⟩
  · -- contiguity
    intro i ri rj h1 h2
    have hj : i + 1 < d := by
      have := List.getElem?_eq_some_iff.mp h2
      simpa [chunkRangesNat_length] using this.1
    have hi : i < d := Nat.lt_of_succ_lt hj
    have hine : i ≠ d - 1 := by omega
    have hjne : i + 1 ≤ d - 1 := by omega
    rw [chunkRangesNat_getElem ts d i hi] at h1
    rw [chunkRangesNat_getElem ts d (i + 1) hj] at h2
    cases h1; cases h2
    simp [hine]
  · -- non-overlap
    intro i j ri rj hij h1 h2
    have hj : j < d := by
      have := List.getElem?_eq_some_iff.mp h2
      simpa [chunkRangesNat_length] using this.1
    have hi : i < d := Nat.lt_trans hij hj
    have hine : i ≠ d - 1 := by omega
    rw [chunkRangesNat_getElem ts d i hi] at h1
    rw [chunkRangesNat_getElem ts d j hj] at h2
    cases h1; cases h2
    simp only [hine, if_false]
    exact Nat.mul_le_mul_right _ hij
  · -- exact coverage
    intro k
    constructor
    · intro hk
      set c := ts / d with hc
      by_cases hc0 : c = 0
      · refine ⟨((d - 1) * c, ts), ?_, ?_, hk⟩
        · simp only [chunkRangesNat, List.mem_map, List.mem_range]
          exact ⟨d - 1, by omega, by simp [← hc]⟩
        · simp [hc0]
      · by_cases hlast : d - 1 ≤ k / c
        · refine ⟨((d - 1) * c, ts), ?_, ?_, hk⟩
          · simp only [chunkRangesNat, List.mem_map, List.mem_range]
            exact ⟨d - 1, by omega, by simp [← hc]⟩
          · calc (d - 1) * c ≤ k / c * c := Nat.mul_le_mul_right _ hlast
            _ ≤ k := Nat.div_mul_le_self k c
        · push_neg at hlast
          have hne : k / c ≠ d - 1 := Nat.ne_of_lt hlast
          have hkd : k / c < d := by omega
          refine ⟨(k / c * c, (k / c + 1) * c), ?_, Nat.div_mul_le_self k c, ?_⟩
          · simp only [chunkRangesNat, List.mem_map, List.mem_range]
            exact ⟨k / c, hkd, by simp [← hc, hne]⟩
          · exact (Nat.div_lt_iff_lt_mul (Nat.pos_of_ne_zero hc0)).mp (Nat.lt_succ_self _)
    · rintro ⟨r, hr, h1, h2⟩
      exact Nat.lt_of_lt_of_le h2 (chunkRangesNat_snd_le ts d r hr)
  · intro h
    simp [planNat, h]

theorem chunk_plan_partition_witness :
    (chunkRangesNat 1048576 8).length = 8 ∧
    rangesPartition 1048576 (chunkRangesNat 1048576 8) ∧
    planNat 1048576 8 = [(0, 1048576)] :=
  ⟨(chunk_plan_partition 1048576 8 (by decide)).1,
   (chunk_plan_partition 1048576 8 (by decide)).2.1,
   (chunk_plan_partition 1048576 8 (by decide)).2.2 (by decide)⟩

/-- C8 counterexample: for a 25 MiB file with degree 4 the plan's range
lengths are not the [6291456, 6291456, 6291456, 6291458] the claim states
(those do not even sum to 26214400). -/
theorem scenario_25MiB_claimed_lengths_false :
    ¬ ((chunkRangesNat 26214400 4).map (fun r => r.2 - r.1) =
        [6291456, 6291456, 6291456, 6291458]) := by decide

/-- C8 amended: for a 25 MiB file (26214400 bytes) with degree 4 the plan has
exactly 4 ranges; 4 divides the size evenly, so all four lengths are 6553600
(the last range absorbs a remainder of 0) and they sum to 26214400. -/
theorem scenario_25MiB_actual_lengths :
    (chunkRangesNat 26214400 4).length = 4 ∧
    (chunkRangesNat 26214400 4).map (fun r => r.2 - r.1) =
      [6553600, 6553600, 6553600, 6553600] ∧
    ((chunkRangesNat 26214400 4).map (fun r => r.2 - r.1)).sum = 26214400 := by decide


theorem downloadChunkM_error_fst (idx n : Nat) (env : WorkerEnv) (e : Nat × String)
    (h : (downloadChunkM idx n env).error = some e) : e.1 = idx := by
  unfold downloadChunkM at h
  split at h
  · cases h; rfl
  · split at h
    · cases h; rfl
    · split at h
      · cases h; rfl
      · split at h
        · cases h; rfl
        · cases h

theorem downloadChunkM_progressDelta (idx n : Nat) (env : WorkerEnv) :
    (downloadChunkM idx n env).progressDelta = (downloadChunkM idx n env).tempBytes := by
  unfold downloadChunkM
  split
  · rfl
  · split
    · rfl
    · split
      · rfl
      · split <;> rfl

/-- C2: whenever at least one chunk worker records an error, `download_file`
returns failure before reassembly: the destination is never created, every
recorded error (naming its chunk index) is reported, and every temp file a
worker created remains on disk. -/
theorem transfer_failed_on_worker_error (fs d : Int) (envs : Nat → WorkerEnv)
    (hd : d ≠ 0) (i : Nat) (hi : i < d.toNat)
    (hierr : (workerResult fs d envs i).error ≠ none) :
    (downloadFileChunked fs d envs).ok = false ∧
    (downloadFileChunked fs d envs).destWritten = none ∧
    (∀ j, j < d.toNat → ∀ e, (workerResult fs d envs j).error = some e →
      e ∈ (downloadFileChunked fs d envs).errors) ∧
    (∀ e ∈ (downloadFileChunked fs d envs).errors,
      ∃ j, j < d.toNat ∧ (workerResult fs d envs j).error = some e ∧ e.1 = j) ∧
    (∀ j, j < d.toNat → (workerResult fs d envs j).tempCreated = true →
      (j, (workerResult fs d envs j).tempBytes) ∈
        (downloadFileChunked fs d envs).tempsRemaining) := by
  have hmem : workerResult fs d envs i ∈ chunkResults fs d envs :=
    List.mem_map_of_mem _ (List.mem_range.mpr hi)
  obtain ⟨e, he⟩ := Option.ne_none_iff_exists'.mp hierr
  have herrs : e ∈ (chunkResults fs d envs).filterMap WorkerResult.error :=
    List.mem_filterMap.mpr ⟨_, hmem, he⟩
  have hne : (chunkResults fs d envs).filterMap WorkerResult.error ≠ [] :=
    List.ne_nil_of_mem herrs
  simp only [downloadFileChunked, if_neg hd, if_neg hne]
  refine ⟨trivial, trivial, ?_, ?_, ?_⟩
  · intro j hj e' he'
    exact List.mem_filterMap.mpr
      ⟨workerResult fs d envs j, List.mem_map_of_mem _ (List.mem_range.mpr hj), he'⟩
  · intro e' he'
    obtain ⟨r, hr, hre⟩ := List.mem_filterMap.mp he'
    simp only [chunkResults, List.mem_map, List.mem_range] at hr
    obtain ⟨j, hj, rfl⟩ := hr
    exact ⟨j, hj, hre, downloadChunkM_error_fst j _ (envs j) e' hre⟩
  · intro j hj hcreated
    refine List.mem_filterMap.mpr ⟨j, List.mem_range.mpr hj, ?_⟩
    simp [hcreated]

theorem transfer_failed_on_worker_error_witness :
    (downloadFileChunked 8 2 oneFailEnvs).ok = false ∧
    (downloadFileChunked 8 2 oneFailEnvs).destWritten = none ∧
    (0, "Connection failed") ∈ (downloadFileChunked 8 2 oneFailEnvs).errors ∧
    (1, 4) ∈ (downloadFileChunked 8 2 oneFailEnvs).tempsRemaining :=
  ⟨(transfer_failed_on_worker_error 8 2 oneFailEnvs (by decide) 0 (by decide) (by decide)).1,
   (transfer_failed_on_worker_error 8 2 oneFailEnvs (by decide) 0 (by decide) (by decide)).2.1,
   (transfer_failed_on_worker_error 8 2 oneFailEnvs (by decide) 0 (by decide)
      (by decide)).2.2.1 0 (by decide) (0, "Connection failed") (by decide),
   (transfer_failed_on_worker_error 8 2 oneFailEnvs (by decide) 0 (by decide)
      (by decide)).2.2.2.2 1 (by decide) (by decide)⟩

/-- C3 counterexample: a run in which `download_file` reports success while
the destination file holds 6 bytes against a file size of 8 — chunk 1's
short read goes unnoticed because no size post-condition is checked. -/
theorem success_despite_size_mismatch :
    (downloadFileChunked 8 2 shortReadEnvs).ok = true ∧
    (downloadFileChunked 8 2 shortReadEnvs).destWritten = some 6 ∧
    (downloadFileChunked 8 2 shortReadEnvs).destWritten ≠ some 8 := by decide

/-- C3 amended: the coordinator performs no size verification at all.  When
no chunk worker records an error it reports success, and the destination
file's size is the sum of the bytes the workers actually read, whether or
not that equals totalSize; there is no SizeMismatch check. -/
theorem success_has_no_size_postcondition (fs d : Int) (envs : Nat → WorkerEnv)
    (hd : d ≠ 0)
    (hno : ∀ i, i < d.toNat → (workerResult fs d envs i).error = none) :
    (downloadFileChunked fs d envs).ok = true ∧
    (downloadFileChunked fs d envs).destWritten =
      some ((chunkResults fs d envs).map WorkerResult.tempBytes).sum := by
  have herrs : (chunkResults fs d envs).filterMap WorkerResult.error = [] := by
    rw [List.filterMap_eq_nil_iff]
    intro r hr
    simp only [chunkResults, List.mem_map, List.mem_range] at hr
    obtain ⟨i, hi, rfl⟩ := hr
    exact hno i hi
  simp [downloadFileChunked, if_neg hd, herrs]

theorem success_has_no_size_postcondition_witness :
    (downloadFileChunked 8 2 shortReadEnvs).ok = true ∧
    (downloadFileChunked 8 2 shortReadEnvs).destWritten =
      some ((chunkResults 8 2 shortReadEnvs).map WorkerResult.tempBytes).sum :=
  success_has_no_size_postcondition 8 2 shortReadEnvs (by decide) (by decide)

/-- C4 counterexample: a worker whose planned range is 4 bytes but whose
remote reads yield only 2 bytes before an empty read records no error at
all (its ChunkResult is a clean success with 2 bytes written). -/
theorem short_read_silently_accepted :
    (downloadChunkM 1 4 shortEnv).error = none ∧
    (downloadChunkM 1 4 shortEnv).tempBytes = 2 ∧
    (downloadChunkM 1 4 shortEnv).tempBytes < 4 := by decide

/-- C4 amended: a short or empty read before `end - start` bytes makes the
read loop break silently: whenever the loop finishes without an exception
the worker records no error — even when the bytes read fall short of the
planned length — and its temp file holds exactly the bytes the reads
produced.  There is no TransferTruncated classification. -/
theorem short_read_breaks_without_error (idx n : Nat) (env : WorkerEnv)
    (hk : env.keyOk = true) (hc : env.connectOk = true) (ho : env.openOk = true)
    (hl : (readLoop n env.trace 0).2 = none) :
    (downloadChunkM idx n env).error = none ∧
    (downloadChunkM idx n env).tempBytes = (readLoop n env.trace 0).1 := by
  rcases hr : readLoop n env.trace 0 with ⟨m, s⟩
  rw [hr] at hl
  cases hl
  simp [downloadChunkM, hk, hc, ho, hr]

theorem short_read_breaks_without_error_witness :
    (readLoop 4 shortEnv.trace 0).2 = none ∧
    (downloadChunkM 1 4 shortEnv).error = none ∧
    (downloadChunkM 1 4 shortEnv).tempBytes = (readLoop 4 shortEnv.trace 0).1 :=
  ⟨by decide, short_read_breaks_without_error 1 4 shortEnv rfl rfl rfl (by decide)⟩

theorem chunkLen_natCast (ts dd i : Nat) (hd : 1 ≤ dd) (hi : i < dd) :
    chunkLen (ts : Int) (dd : Int) i =
      if i = dd - 1 then ts - (dd - 1) * (ts / dd) else ts / dd := by
  simp only [chunkLen, ← Int.ofNat_fdiv ts dd]
  by_cases h : i = dd - 1
  · rw [if_pos (by omega : (i : Int) = (dd : Int) - 1), if_pos h, h]
    rw [show ((dd - 1 : Nat) : Int) * ((ts / dd : Nat) : Int) = (((dd - 1) * (ts / dd) : Nat) : Int)
      by push_cast; ring]
    exact Int.toNat_sub ts ((dd - 1) * (ts / dd))
  · rw [if_neg (by omega : ¬ (i : Int) = (dd : Int) - 1), if_neg h]
    rw [show ((i : Int) + 1) * ((ts / dd : Nat) : Int) - (i : Int) * ((ts / dd : Nat) : Int)
        = ((ts / dd : Nat) : Int) by ring]
    exact Int.toNat_natCast (ts / dd)

theorem sum_chunkLen (ts dd : Nat) (hd : 1 ≤ dd) :
    ((List.range dd).map (chunkLen (ts : Int) (dd : Int))).sum = ts := by
  obtain ⟨k, rfl⟩ : ∃ k, dd = k + 1 := ⟨dd - 1, by omega⟩
  rw [List.range_succ, List.map_append, List.sum_append]
  have h1 : (List.range k).map (chunkLen (ts : Int) ((k + 1 : Nat) : Int)) =
      List.replicate k (ts / (k + 1)) := by
    apply List.eq_replicate_iff.mpr
    refine ⟨by simp, ?_⟩
    intro b hb
    simp only [List.mem_map, List.mem_range] at hb
    obtain ⟨i, hik, rfl⟩ := hb
    rw [chunkLen_natCast ts (k + 1) i (by omega) (by omega)]
    rw [if_neg (by omega)]
  have h2 : chunkLen (ts : Int) ((k + 1 : Nat) : Int) k = ts - k * (ts / (k + 1)) := by
    rw [chunkLen_natCast ts (k + 1) k (by omega) (by omega), if_pos (by omega)]
    simp
  have hle : k * (ts / (k + 1)) ≤ ts :=
    le_trans (Nat.mul_le_mul_right _ (Nat.le_succ k))
      (le_of_eq_of_le (Nat.mul_comm _ _) (Nat.div_mul_le_self ts (k + 1)))
  rw [h1]
  simp only [List.map_cons, List.map_nil, List.sum_cons, List.sum_nil, List.sum_replicate,
    smul_eq_mul, Nat.add_zero]
  rw [h2]
  exact Nat.add_sub_cancel' hle

/-- C5 counterexample: a transfer reported successful whose final shared
progress counter holds 6 while the file size is 8 — the short-read chunk
contributed only the bytes it actually read. -/
theorem aggregate_progress_shortfall :
    (downloadFileChunked 8 2 shortReadEnvs).ok = true ∧
    (downloadFileChunked 8 2 shortReadEnvs).aggregateProgress = 6 ∧
    (downloadFileChunked 8 2 shortReadEnvs).aggregateProgress ≠ 8 := by decide

/-- C5 amended: the final aggregate progress counter equals the sum of the
bytes the workers actually read (which is also the size the destination
file gets on success), and it equals totalSize exactly when every worker
reads its full planned range length; a silent short read yields a smaller
aggregate on a transfer still reported successful. -/
theorem aggregate_progress_eq_bytes_read (ts dd : Nat) (envs : Nat → WorkerEnv)
    (hd : 1 ≤ dd) :
    (downloadFileChunked (ts : Int) (dd : Int) envs).aggregateProgress =
      ((chunkResults (ts : Int) (dd : Int) envs).map WorkerResult.tempBytes).sum ∧
    ((downloadFileChunked (ts : Int) (dd : Int) envs).ok = true →
      (downloadFileChunked (ts : Int) (dd : Int) envs).destWritten =
        some ((chunkResults (ts : Int) (dd : Int) envs).map WorkerResult.tempBytes).sum) ∧
    ((∀ i, i < dd → (workerResult (ts : Int) (dd : Int) envs i).tempBytes =
        chunkLen (ts : Int) (dd : Int) i) →
      (downloadFileChunked (ts : Int) (dd : Int) envs).aggregateProgress = ts) := by
  have hd0 : (dd : Int) ≠ 0 := by exact_mod_cast (by omega : (dd : Nat) ≠ 0)
  have hddn : ¬ (dd = 0) := by omega
  have htn : ((dd : Int)).toNat = dd := Int.toNat_natCast dd
  have hdelta : (chunkResults (ts : Int) (dd : Int) envs).map WorkerResult.progressDelta =
      (chunkResults (ts : Int) (dd : Int) envs).map WorkerResult.tempBytes := by
    simp only [chunkResults, List.map_map]
    apply List.map_congr_left
    intro i _
    exact downloadChunkM_progressDelta i _ (envs i)
  have hsum : ((chunkResults (ts : Int) (dd : Int) envs).map WorkerResult.progressDelta).sum =
      ((chunkResults (ts : Int) (dd : Int) envs).map WorkerResult.tempBytes).sum := by
    rw [hdelta]
  refine ⟨?_, ?_, ?_⟩
  · by_cases herr : (chunkResults (ts : Int) (dd : Int) envs).filterMap WorkerResult.error = []
    · simp [downloadFileChunked, if_neg hd0, hddn, herr, hsum]
    · simp [downloadFileChunked, if_neg hd0, hddn, herr, hsum]
  · intro hok
    by_cases herr : (chunkResults (ts : Int) (dd : Int) envs).filterMap WorkerResult.error = []
    · simp [downloadFileChunked, if_neg hd0, hddn, herr]
    · exfalso
      simp [downloadFileChunked, if_neg hd0, hddn, herr] at hok
  · intro hfull
    have hbytes : ((chunkResults (ts : Int) (dd : Int) envs).map WorkerResult.tempBytes).sum
        = ts := by
      have : (chunkResults (ts : Int) (dd : Int) envs).map WorkerResult.tempBytes =
          (List.range dd).map (chunkLen (ts : Int) (dd : Int)) := by
        simp only [chunkResults, List.map_map, htn]
        apply List.map_congr_left
        intro i hi
        exact hfull i (List.mem_range.mp hi)
      rw [this]
      exact sum_chunkLen ts dd hd
    by_cases herr : (chunkResults (ts : Int) (dd : Int) envs).filterMap WorkerResult.error = []
    · simp [downloadFileChunked, if_neg hd0, hddn, herr, hsum, hbytes]
    · simp [downloadFileChunked, if_neg hd0, hddn, herr, hsum, hbytes]

theorem aggregate_progress_eq_bytes_read_witness :
    (downloadFileChunked ((8 : Nat) : Int) ((2 : Nat) : Int) allGoodEnvs).aggregateProgress
      = 8 :=
  (aggregate_progress_eq_bytes_read 8 2 allGoodEnvs (by decide)).2.2 (by decide)

/-- C7 counterexample: with degree -1 the plan is a degenerate empty range
list — not an InvalidConfiguration failure — and the transfer is reported
successful, creating an empty destination file. -/
theorem negative_degree_degenerate_success :
    chunkPlan 20971520 (-1) = Except.ok [] ∧
    (downloadFileChunked 20971520 (-1) allGoodEnvs).ok = true ∧
    (downloadFileChunked 20971520 (-1) allGoodEnvs).destWritten = some 0 ∧
    (downloadFileChunked 20971520 (-1) allGoodEnvs).errors = [] :=
  ⟨rfl, by decide, by decide, by decide⟩

/-- C7 amended: no InvalidConfiguration classification exists.  Degree 0
makes the chunk-size division raise ZeroDivisionError, which the generic
exception handler turns into a bare failure return; any negative degree
produces an empty plan, spawns no workers, and the transfer reports success
after writing an empty destination file. -/
theorem nonpositive_degree_behavior (fs d : Int) (envs : Nat → WorkerEnv) :
    (d = 0 → chunkPlan fs d =
      Except.error "ZeroDivisionError: integer division or modulo by zero") ∧
    (d = 0 → downloadFileChunked fs d envs =
      { ok := false, errors := [], destWritten := none, tempsRemaining := [],
        aggregateProgress := 0 }) ∧
    (d < 0 → downloadFileChunked fs d envs =
      { ok := true, errors := [], destWritten := some 0, tempsRemaining := [],
        aggregateProgress := 0 }) := by
  refine ⟨?_, ?_, ?_⟩
  · intro h
    simp [chunkPlan, h]
  · intro h
    simp [downloadFileChunked, h]
  · intro h
    have h0 : d ≠ 0 := by omega
    have ht : d.toNat = 0 := Int.toNat_of_nonpos (le_of_lt h)
    simp [downloadFileChunked, h0, chunkResults, ht]

theorem nonpositive_degree_behavior_witness :
    downloadFileChunked 100 0 allGoodEnvs =
      { ok := false, errors := [], destWritten := none, tempsRemaining := [],
        aggregateProgress := 0 } ∧
    downloadFileChunked 100 (-2) allGoodEnvs =
      { ok := true, errors := [], destWritten := some 0, tempsRemaining := [],
        aggregateProgress := 0 } :=
  ⟨(nonpositive_degree_behavior 100 0 allGoodEnvs).2.1 rfl,
   (nonpositive_degree_behavior 100 (-2) allGoodEnvs).2.2 (by decide)⟩

/-- C9 counterexample: a worker whose connection comes up and whose second
read raises records the error, but its SSH/SFTP session is left open when
the worker terminates — the close calls are only on the success path. -/
theorem session_left_open_on_exception :
    (downloadChunkM 1 8 exnEnv).sessionOpened = true ∧
    (downloadChunkM 1 8 exnEnv).error = some (1, "Connection reset by peer") ∧
    (downloadChunkM 1 8 exnEnv).sessionClosed = false := by decide

/-- C9 amended: a worker whose session came up closes it exactly when the
read loop finishes without an exception (including short reads); when an
exception is raised after the session is open, the `except` branch records
the error but never closes the session, leaking the connection. -/
theorem session_closed_iff_loop_clean (idx n : Nat) (env : WorkerEnv)
    (hk : env.keyOk = true) (hc : env.connectOk = true) (ho : env.openOk = true) :
    (downloadChunkM idx n env).sessionOpened = true ∧
    ((downloadChunkM idx n env).sessionClosed = true ↔
      (readLoop n env.trace 0).2 = none) := by
  rcases hr : readLoop n env.trace 0 with ⟨m, s⟩
  cases s <;> simp [downloadChunkM, hk, hc, ho, hr]

theorem session_closed_iff_loop_clean_witness :
    (downloadChunkM 0 4 (fullEnv 4)).sessionOpened = true ∧
    ((downloadChunkM 0 4 (fullEnv 4)).sessionClosed = true ↔
      (readLoop 4 (fullEnv 4).trace 0).2 = none) :=
  session_closed_iff_loop_clean 0 4 (fullEnv 4) rfl rfl rfl

/-- C6: a `set` followed by a `get` of the same path within `max_age`
seconds hits, returning exactly the entries and folder sizes passed to
`set` together with the entry's age; a `get` strictly more than `max_age`
seconds after the `set` misses. -/
theorem cache_set_get_roundtrip (store : CacheStore) (max_age t0 t1 : Nat)
    (path : String) (files : List DirEntry) (fsz : List (String × Nat))
    (_h : t0 ≤ t1) :
    (t1 - t0 ≤ max_age →
      CacheManager.get (CacheManager.set store t0 path files (some fsz)) max_age t1 path
        = some (files, t1 - t0, fsz)) ∧
    (max_age < t1 - t0 →
      CacheManager.get (CacheManager.set store t0 path files (some fsz)) max_age t1 path
        = none) := by
  constructor
  · intro hage
    simp [CacheManager.get, CacheManager.set, Nat.not_lt.mpr hage]
  · intro hage
    simp [CacheManager.get, CacheManager.set, hage]

theorem cache_set_get_roundtrip_witness :
    CacheManager.get
        (CacheManager.set (fun _ => none) 100 "/remote/dir" [] (some [("sub", 42)]))
        300 110 "/remote/dir" = some ([], 10, [("sub", 42)]) ∧
    CacheManager.get
        (CacheManager.set (fun _ => none) 100 "/remote/dir" [] (some [("sub", 42)]))
        300 500 "/remote/dir" = none :=
  ⟨(cache_set_get_roundtrip (fun _ => none) 300 100 110 "/remote/dir" [] [("sub", 42)]
      (by decide)).1 (by decide),
   (cache_set_get_roundtrip (fun _ => none) 300 100 500 "/remote/dir" [] [("sub", 42)]
      (by decide)).2 (by decide)⟩

/-- C10 counterexample: a listing whose two entries share a modification
time is returned in an order that is not strictly descending in mtime
(the two adjacent entries tie). -/
theorem listing_not_strictly_sorted_on_ties :
    ¬ List.Pairwise (fun a b => b.mtime < a.mtime)
        (list_directory true (Except.ok
          [{ filename := "a", st_size := 1, st_mtime := 5, st_mode := 0o100644 },
           { filename := "b", st_size := 2, st_mtime := 5, st_mode := 0o100644 }])) := by
  decide

/-- C10 amended: a successfully retrieved listing is returned sorted by
modification time in descending (non-increasing, ties allowed) order,
regardless of entry type, and is a permutation of the listed entries; with
no connection or on a listing error the result is the empty list. -/
theorem list_directory_sorted_desc (attrs : List SFTPAttr) (e : String)
    (l : Except String (List SFTPAttr)) :
    list_directory false l = [] ∧
    list_directory true (Except.error e) = [] ∧
    List.Sorted mtimeDesc (list_directory true (Except.ok attrs)) ∧
    List.Perm (list_directory true (Except.ok attrs)) (attrs.map toDirEntry) := by
  refine ⟨rfl, rfl, ?_, ?_⟩
  · exact List.sorted_insertionSort mtimeDesc (attrs.map toDirEntry)
  · exact List.perm_insertionSort mtimeDesc (attrs.map toDirEntry)

/-- The `Nat` specialisation agrees with the `Int` model of the plan: for a
non-negative size and positive degree, the source's ranges are exactly the
`chunkRangesNat` ranges. -/
theorem chunkRanges_natCast (ts dd : Nat) (hd : 1 ≤ dd) :
    chunkRanges (ts : Int) (dd : Int) =
      (chunkRangesNat ts dd).map (fun p => ((p.1 : Int), (p.2 : Int))) := by
  unfold chunkRanges chunkRangesNat pyRange
  dsimp only
  rw [Int.toNat_natCast, List.map_map, List.map_map]
  apply List.map_congr_left
  intro i hi
  rw [List.mem_range] at hi
  simp only [Function.comp_apply]
  rw [← Int.ofNat_fdiv ts dd]
  by_cases h : i = dd - 1
  · rw [if_pos (by omega : (i : Int) = (dd : Int) - 1), if_pos h]
    exact Prod.ext (by push_cast; ring) rfl
  · rw [if_neg (by omega : ¬ (i : Int) = (dd : Int) - 1), if_neg h]
    exact Prod.ext (by push_cast; ring) (by push_cast; ring)
